import Mathlib

/-!
Shallow embedding of the superblockify partitioning-and-metrics engine,
with theorems settling the frozen claims about its specification.

Conventions used throughout:
* Python floats are modelled with exact arithmetic: a finite float is a
  rational number, and the special values NaN / +inf / -inf are explicit
  constructors (`PFloat`).
* Fallible code returns `Except` (the error constructor names the Python
  exception class) or pairs its result with an `Option` error when the
  mutated state remains observable after a raise.
* Code of the repository that is not present under `src/` (only its tests,
  callers or the spec mention it) is modelled from the spec; every such
  definition carries a doc comment starting with `Modelled from the spec:`.
-/

set_option autoImplicit false

attribute [local semireducible] Rat.add Rat.sub Rat.mul Rat.inv

namespace Superblockify

/-- Model of a Python float: a finite value (exact rational) or one of the
special values NaN, +inf, -inf. -/
inductive PFloat where
  | num (q : ℚ)
  | nan
  | inf
  | ninf
deriving DecidableEq, Repr

/-- Python comparison `a < b` on float models: any comparison involving NaN
is false; infinities compare in the usual way. -/
def PFloat.ltB : PFloat → PFloat → Bool
  | .num a, .num b => a < b
  | .nan, _ => false
  | _, .nan => false
  | .ninf, .ninf => false
  | .ninf, _ => true
  | _, .ninf => false
  | .inf, _ => false
  | .num _, .inf => true

/-- A Python value passed as the `percentile` argument: an int, a float, or
something of another type (bools, strings, None, ...). -/
inductive Percentile where
  | int (n : ℤ)
  | float (f : PFloat)
  | other (descr : String)
deriving DecidableEq, Repr

/-- `isinstance(percentile, (float, int))` of the source. -/
def Percentile.isNumeric : Percentile → Bool
  | .int _ => true
  | .float _ => true
  | .other _ => false

/-- The chained comparison `0.0 < percentile < 100.0` of the source,
with Python float-comparison semantics (false on NaN). -/
def Percentile.strictlyBetween0And100 : Percentile → Bool
  | .int n => 0 < n ∧ n < 100
  | .float f => PFloat.ltB (.num 0) f ∧ PFloat.ltB f (.num 100)
  | .other _ => false

/-- The error raised by the percentile validation. -/
inductive ValueError where
  | notNumeric (descr : String)
  | notBetween
deriving DecidableEq, Repr

/-- Embedding of the validation prefix of
`Metric.calculate_high_bc_clustering` (metrics/metric.py, lines 391-398):
raise `ValueError` if `percentile` is not a float or int, then raise
`ValueError` if not `0.0 < percentile < 100.0`; otherwise the validation
passes and `percentile / 100` is handed to the measure computation. -/
def calculate_high_bc_clustering_validation (percentile : Percentile) :
    Except ValueError Percentile :=
  if ¬ percentile.isNumeric then
    .error (.notNumeric "percentile needs to be a float or int")
  else if ¬ percentile.strictlyBetween0And100 then
    .error .notBetween
  else
    .ok percentile

/-- A Python attribute value as stored on a `Metric` object: `None`, a float
(finite exact value or NaN), a string, a list (also standing in for numpy
arrays), or a dict with string keys. -/
inductive PyValue where
  | none
  | nan
  | num (q : ℚ)
  | str (s : String)
  | list (xs : List PyValue)
  | dict (xs : List (String × PyValue))

mutual

/-- Modelled from the spec: `compare_dicts` of superblockify/utils.py is not
under src/; the spec demands "deep structural equality over nested mappings,
treating NaN specially if present", so two values compare equal when they
are structurally identical, with NaN equal to itself. -/
def compareValues : PyValue → PyValue → Bool
  | .none, .none => true
  | .nan, .nan => true
  | .num a, .num b => a == b
  | .str a, .str b => a == b
  | .list xs, .list ys => compareLists xs ys
  | .dict xs, .dict ys => compareEntries xs ys
  | _, _ => false

/-- Elementwise deep comparison of two Python lists. -/
def compareLists : List PyValue → List PyValue → Bool
  | [], [] => true
  | x :: xs, y :: ys => compareValues x y && compareLists xs ys
  | _, _ => false

/-- Entrywise deep comparison of two Python dicts (key and value). -/
def compareEntries : List (String × PyValue) → List (String × PyValue) → Bool
  | [], [] => true
  | (k, v) :: xs, (l, w) :: ys => k == l && compareValues v w && compareEntries xs ys
  | _, _ => false

end

/-- The `Metric` object of superblockify/metrics/metric.py: one field per
attribute set in `__init__`, in insertion order. -/
structure Metric where
  coverage : PyValue
  num_components : PyValue
  avg_path_length : PyValue
  directness : PyValue
  global_efficiency : PyValue
  high_bc_clustering : PyValue
  high_bc_anisotropy : PyValue
  distance_matrix : PyValue
  predecessor_matrix : PyValue
  unit : PyValue
  node_list : PyValue

/-- `Metric.__init__(unit="time")`: the attribute values a fresh `Metric`
holds (metrics/metric.py, lines 105-128). -/
def Metric.init (unit : PyValue := .str "time") : Metric where
  coverage := .none
  num_components := .none
  avg_path_length := .dict [("S", .none), ("N", .none)]
  directness := .dict [("SN", .none)]
  global_efficiency := .dict [("NS", .none)]
  high_bc_clustering := .none
  high_bc_anisotropy := .none
  distance_matrix := .dict []
  predecessor_matrix := .dict []
  unit := unit
  node_list := .none

/-- `self.__dict__` of a `Metric`: attribute names with their values, in the
insertion order of `__init__`. -/
def Metric.toDict (m : Metric) : List (String × PyValue) :=
  [("coverage", m.coverage), ("num_components", m.num_components),
   ("avg_path_length", m.avg_path_length), ("directness", m.directness),
   ("global_efficiency", m.global_efficiency),
   ("high_bc_clustering", m.high_bc_clustering),
   ("high_bc_anisotropy", m.high_bc_anisotropy),
   ("distance_matrix", m.distance_matrix),
   ("predecessor_matrix", m.predecessor_matrix),
   ("unit", m.unit), ("node_list", m.node_list)]

/-- `Metric.__eq__`: `compare_dicts(self.__dict__, other.__dict__)`
(metrics/metric.py, lines 439-445). -/
def Metric.eq (m other : Metric) : Bool :=
  compareEntries m.toDict other.toDict

/-- The on-disk pickle blob holding a saved `Metric`. The pickling layer is
an external collaborator ("opaque serialized blob ... reloadable into an
equivalent in-memory Metric"), modelled as faithful value transport. -/
structure PickleBlob where
  data : Metric

/-- `Metric.save` (metrics/metric.py, lines 447-468): pickles `self` to the
metrics file. -/
def Metric.save (m : Metric) : PickleBlob := ⟨m⟩

/-- `Metric.load` (metrics/metric.py, lines 470-491): unpickles the metrics
file back into a `Metric`. -/
def Metric.load (blob : PickleBlob) : Metric := blob.data

/-- Python's `value is not None` identity test. -/
def PyValue.isNone : PyValue → Bool
  | .none => true
  | _ => false

/-- String rendering of a scalar attribute value, standing in for Python's
`str()` inside the f-strings of `Metric.__str__`. Container renderings are
simplified; only scalar renderings are relied on in concrete evaluations. -/
def pyStr : PyValue → String
  | .none => "None"
  | .nan => "nan"
  | .num q => toString q
  | .str s => s
  | .list _ => "[...]"
  | .dict _ => "{...}"

/-- Inner loop of `Metric.__str__` over a dict value: append
`"key2: value2, "` for every entry whose value is not None. -/
def dictEntriesStr : List (String × PyValue) → String
  | [] => ""
  | (k, v) :: rest =>
    (if v.isNone then "" else k ++ ": " ++ pyStr v ++ ", ") ++ dictEntriesStr rest

/-- The accumulator loop of `Metric.__str__` in metrics/metric.py (lines
409-430): a field is rendered when its value is not None *or the key is*
`"unit"`; dict values with all entries None are skipped, other dicts list
their non-None entries, then the trailing `", "` of the accumulated string
is replaced by `"; "`. -/
def strLoopNew : List (String × PyValue) → String → String
  | [], acc => acc
  | (key, value) :: rest, acc =>
    if !value.isNone || key == "unit" then
      match value with
      | .dict entries =>
        if entries.all (fun kv => kv.2.isNone) then
          strLoopNew rest acc
        else
          strLoopNew rest
            ((acc ++ key ++ ": " ++ dictEntriesStr entries).dropRight 2 ++ "; ")
      | v => strLoopNew rest (acc ++ key ++ ": " ++ pyStr v ++ "; ")
    else
      strLoopNew rest acc

/-- `Metric.__str__` of metrics/metric.py. -/
def Metric.str (m : Metric) : String :=
  strLoopNew m.toDict ""

/-- `Metric.__repr__` of metrics/metric.py: class name around `__str__`. -/
def Metric.reprStr (m : Metric) : String :=
  "Metric(" ++ m.str ++ ")"

end Superblockify

namespace Superblockify.Legacy

open Superblockify (PyValue pyStr dictEntriesStr)
open Superblockify.PyValue (isNone)

/-- The `Metric` object of superblockify/metrics.py (the legacy module): one
field per attribute set in its `__init__`. -/
structure Metric where
  coverage : PyValue
  num_components : PyValue
  avg_path_length : PyValue
  directness : PyValue
  global_efficiency : PyValue
  local_efficiency : PyValue

/-- `Metric.__init__` of superblockify/metrics.py (lines 40-48). -/
def Metric.init : Metric where
  coverage := .none
  num_components := .none
  avg_path_length := .dict [("E", .none), ("S", .none), ("N", .none)]
  directness := .dict [("ES", .none), ("EN", .none), ("SN", .none)]
  global_efficiency := .dict [("SE", .none), ("NE", .none), ("NS", .none)]
  local_efficiency := .dict [("SE", .none), ("NE", .none), ("NS", .none)]

/-- `self.__dict__` of the legacy `Metric`. -/
def Metric.toDict (m : Metric) : List (String × PyValue) :=
  [("coverage", m.coverage), ("num_components", m.num_components),
   ("avg_path_length", m.avg_path_length), ("directness", m.directness),
   ("global_efficiency", m.global_efficiency),
   ("local_efficiency", m.local_efficiency)]

/-- The accumulator loop of the legacy `Metric.__str__` (metrics.py, lines
50-71): identical to the newer one except that a field is rendered only when
its value is not None (no special case for any key). -/
def strLoopOld : List (String × PyValue) → String → String
  | [], acc => acc
  | (key, value) :: rest, acc =>
    if !value.isNone then
      match value with
      | .dict entries =>
        if entries.all (fun kv => kv.2.isNone) then
          strLoopOld rest acc
        else
          strLoopOld rest
            ((acc ++ key ++ ": " ++ dictEntriesStr entries).dropRight 2 ++ "; ")
      | v => strLoopOld rest (acc ++ key ++ ": " ++ pyStr v ++ "; ")
    else
      strLoopOld rest acc

/-- `Metric.__str__` of superblockify/metrics.py. -/
def Metric.str (m : Metric) : String :=
  strLoopOld m.toDict ""

/-- `Metric.__repr__` of superblockify/metrics.py. -/
def Metric.reprStr (m : Metric) : String :=
  "Metric(" ++ m.str ++ ")"

end Superblockify.Legacy

namespace Superblockify

/-! ### Partitioning checks (partitioning/checks.py) -/

/-- A subgraph view: node identifiers and edge identifiers `(u, v, key)` of a
networkx multidigraph. -/
structure Subgraph where
  nodes : List ℕ
  edges : List (ℕ × ℕ × ℕ)

/-- The part of a partitioner the validity checks read: the parent graph's
nodes and edges, the sparsified subgraph, and the component list (name and
subgraph view for each component; the source falls back from `components` to
`partitions`, modelled as the single list in use). -/
structure Partitioning where
  name : String
  graphNodes : List ℕ
  graphEdges : List (ℕ × ℕ × ℕ)
  sparsified : Subgraph
  components : List (String × Subgraph)

/-- One expansion step of undirected reachability: add every node joined by
an edge (in either direction) to an already reached node. -/
def undirectedStep (edges : List (ℕ × ℕ × ℕ)) (reached : List ℕ) : List ℕ :=
  reached ++
    edges.filterMap (fun e =>
      if reached.contains e.1 && !reached.contains e.2.1 then some e.2.1
      else none) ++
    edges.filterMap (fun e =>
      if reached.contains e.2.1 && !reached.contains e.1 then some e.1
      else none)

/-- Iterated undirected reachability. -/
def reachUndirected (edges : List (ℕ × ℕ × ℕ)) : ℕ → List ℕ → List ℕ
  | 0, acc => acc
  | n + 1, acc => reachUndirected edges n (undirectedStep edges acc)

/-- `networkx.is_weakly_connected`: every node is reachable from the first
node when edge directions are ignored. (networkx raises on the null graph;
the checks only apply it to nonempty views, so the null case is immaterial
and set to true.) -/
def Subgraph.weaklyConnected (g : Subgraph) : Bool :=
  match g.nodes with
  | [] => true
  | n :: _ =>
    g.nodes.all fun m => (reachUndirected g.edges g.nodes.length [n]).contains m

/-- Modelled from the spec: `has_pairwise_overlap` of superblockify/utils.py
is not under src/; the spec describes it as the "matrix of
pairwise-intersection-nonempty checks". Entry `(i, j)` of that matrix. -/
def has_pairwise_overlap {α : Type} [DecidableEq α]
    (ls : List (List α)) (i j : ℕ) : Bool :=
  (ls.getD i []).any fun x => (ls.getD j []).contains x

/-- The overlap matrix with the diagonal filled with `False`, collapsed by
`.any()` as the source does after `fill_diagonal`. -/
def anyOffDiagOverlap {α : Type} [DecidableEq α] (ls : List (List α)) : Bool :=
  (List.range ls.length).any fun i =>
    (List.range ls.length).any fun j =>
      decide (i ≠ j) && has_pairwise_overlap ls i j

/-- Modelled from the spec: `BasePartitioner.get_partition_nodes` is not
under src/. Per the spec's data-model invariant ("every node ... appears in
exactly one of {some component, the sparsified graph}"), a component's node
set is its subgraph's nodes without the nodes of the sparsified graph; the
subgraph itself is carried along for the edge checks. -/
def Partitioning.get_partition_nodes (p : Partitioning) :
    List (String × List ℕ × Subgraph) :=
  p.components.map fun c =>
    (c.1, c.2.nodes.filter (fun n => !p.sparsified.nodes.contains n), c.2)

/-- `components_are_connected` (checks.py, lines 80-121): the source walks
every component, plotting the failing ones, and returns whether all
component subgraphs are weakly connected. -/
def components_are_connected (p : Partitioning) : Bool :=
  p.components.all fun c => c.2.weaklyConnected

/-- Nodes of the graph contained in no component node set and not in the
sparsified graph (checks.py, lines 162-170). -/
def missingNodes (p : Partitioning) : List ℕ :=
  p.graphNodes.filter fun n =>
    !(p.get_partition_nodes.any fun part => part.2.1.contains n) &&
      !p.sparsified.nodes.contains n

/-- Edges of the graph contained in no component edge set and not in the
sparsified graph (checks.py, lines 213-223). -/
def missingEdges (p : Partitioning) : List (ℕ × ℕ × ℕ) :=
  p.graphEdges.filter fun e =>
    !(p.get_partition_nodes.any fun part => part.2.2.edges.contains e) &&
      !p.sparsified.edges.contains e

/-- The component node sets the node-overlap check compares. -/
def partitionNodeLists (p : Partitioning) : List (List ℕ) :=
  p.get_partition_nodes.map fun part => part.2.1

/-- The edge sets the edge-overlap check compares: each component's edges
plus the sparsified graph's edges. -/
def partitionEdgeLists (p : Partitioning) : List (List (ℕ × ℕ × ℕ)) :=
  (p.get_partition_nodes.map fun part => part.2.2.edges) ++ [p.sparsified.edges]

/-- `nodes_and_edges_are_contained_in_exactly_one_subgraph` (checks.py,
lines 124-234): node overlap, missing nodes, edge overlap (including the
sparsified graph), missing edges — each an early `return False`. -/
def nodes_and_edges_are_contained_in_exactly_one_subgraph
    (p : Partitioning) : Bool :=
  if anyOffDiagOverlap (partitionNodeLists p) then false
  else if !(missingNodes p).isEmpty then false
  else if anyOffDiagOverlap (partitionEdgeLists p) then false
  else if !(missingEdges p).isEmpty then false
  else true

/-- `components_are_connect_sparsified` (checks.py, lines 237-268): each
component shares at least one node with the sparsified graph. -/
def components_are_connect_sparsified (p : Partitioning) : Bool :=
  p.components.all fun c =>
    p.graphNodes.any fun n =>
      c.2.nodes.contains n && p.sparsified.nodes.contains n

/-- `is_valid_partitioning` (checks.py, lines 16-77): the four guarded
stages, each an early `return False`. -/
def is_valid_partitioning (p : Partitioning) : Bool :=
  if !p.sparsified.weaklyConnected then false
  else if !components_are_connected p then false
  else if !nodes_and_edges_are_contained_in_exactly_one_subgraph p then false
  else if !components_are_connect_sparsified p then false
  else true

/-- The seven structural checks of the Validity Checker, in the spec's
order. -/
inductive CheckId where
  | sparsifiedConnected
  | componentsConnected
  | nodeOverlap
  | missingNodesCheck
  | edgeOverlap
  | missingEdgesCheck
  | componentsTouchSparsified
deriving DecidableEq, Repr

/-- Whether an individual check passes on a partitioning. -/
def checkPasses (p : Partitioning) : CheckId → Bool
  | .sparsifiedConnected => p.sparsified.weaklyConnected
  | .componentsConnected => components_are_connected p
  | .nodeOverlap => !anyOffDiagOverlap (partitionNodeLists p)
  | .missingNodesCheck => (missingNodes p).isEmpty
  | .edgeOverlap => !anyOffDiagOverlap (partitionEdgeLists p)
  | .missingEdgesCheck => (missingEdges p).isEmpty
  | .componentsTouchSparsified => components_are_connect_sparsified p

/-- The stated order of the seven checks. -/
def checkOrder : List CheckId :=
  [.sparsifiedConnected, .componentsConnected, .nodeOverlap,
   .missingNodesCheck, .edgeOverlap, .missingEdgesCheck,
   .componentsTouchSparsified]

/-- The checks `is_valid_partitioning` actually evaluates, in evaluation
order, mirroring its control flow: each check is reached only if all
previous checks passed. -/
def checksEvaluated (p : Partitioning) : List CheckId :=
  .sparsifiedConnected ::
    (if !p.sparsified.weaklyConnected then []
     else .componentsConnected ::
       (if !components_are_connected p then []
        else .nodeOverlap ::
          (if anyOffDiagOverlap (partitionNodeLists p) then []
           else .missingNodesCheck ::
             (if !(missingNodes p).isEmpty then []
              else .edgeOverlap ::
                (if anyOffDiagOverlap (partitionEdgeLists p) then []
                 else .missingEdgesCheck ::
                   (if !(missingEdges p).isEmpty then []
                    else [.componentsTouchSparsified]))))))

/-- Reassign an edge so it additionally appears in component `j`: the edge
identifier (and its endpoint nodes, as a networkx edge addition would add
them) is added to component `j`'s subgraph view. -/
def addEdgeToComponent (p : Partitioning) (j : ℕ) (e : ℕ × ℕ × ℕ) :
    Partitioning :=
  let c := p.components.getD j ("", ⟨[], []⟩)
  let withU := if c.2.nodes.contains e.1 then c.2.nodes else c.2.nodes ++ [e.1]
  let withUV := if withU.contains e.2.1 then withU else withU ++ [e.2.1]
  { p with
    components := p.components.set j (c.1, ⟨withUV, e :: c.2.edges⟩) }

/-- The spec's minimal valid partitioning: a 4-node, 4-edge cycle-like graph
split into two single-edge components joined by a two-edge sparsified
backbone. -/
def minimalPartitioning : Partitioning where
  name := "minimal"
  graphNodes := [1, 2, 3, 4]
  graphEdges := [(1, 2, 0), (3, 4, 0), (2, 3, 0), (4, 2, 0)]
  sparsified := ⟨[2, 3, 4], [(2, 3, 0), (4, 2, 0)]⟩
  components := [("A", ⟨[1, 2], [(1, 2, 0)]⟩), ("B", ⟨[3, 4], [(3, 4, 0)]⟩)]

/-! ### BearingPartitioner.merge_sets (partitioning/bearing.py, lines 344-385) -/

/-- The inner loop of `BearingPartitioner.merge_sets`, with Python's
list-iteration semantics made explicit: the cursor `j` advances by one every
step over the *mutating* list (so the element sliding into a popped position
is skipped), `group` is the stale value captured when the outer loop reached
index `i` (the source never refreshes it after writing `sets[i]`), and a
merge executes `sets[i] = group | group2` followed by `sets.pop(j)`.
The fuel argument only bounds the number of steps; starting it at the
current length is exact, because `j` advances by one per step while the
length never grows, so the loop always exits before the fuel does.
(`List.set` is a no-op out of range, where CPython would raise IndexError;
no use in this development reaches that state.) -/
def mergeInner (group : Finset ℕ) (i : ℕ) :
    ℕ → List (Finset ℕ) → ℕ → List (Finset ℕ)
  | 0, sets, _ => sets
  | fuel + 1, sets, j =>
    if h : j < sets.length then
      let group2 := sets.get ⟨j, h⟩
      if i ≠ j ∧ (group ∩ group2).Nonempty then
        mergeInner group i fuel ((sets.set i (group ∪ group2)).eraseIdx j) (j + 1)
      else
        mergeInner group i fuel sets (j + 1)
    else sets

/-- The outer loop of `merge_sets`: the cursor `i` advances by one per
iteration over the mutating list and stops once it passes the current
length. The fuel argument only bounds the number of iterations; starting it
at the initial length is exact, because `i` grows by one per iteration while
the length never grows, so the loop always exits by the fuel's end. -/
def mergeOuter : ℕ → List (Finset ℕ) → ℕ → List (Finset ℕ)
  | 0, sets, _ => sets
  | fuel + 1, sets, i =>
    if h : i < sets.length then
      mergeOuter fuel (mergeInner (sets.get ⟨i, h⟩) i sets.length sets 0) (i + 1)
    else sets

/-- `BearingPartitioner.merge_sets` (bearing.py, lines 344-385): merge sets
that share at least one element, by Python's in-place double loop. -/
def merge_sets (sets : List (Finset ℕ)) : List (Finset ℕ) :=
  mergeOuter sets.length sets 0

/-! ### save_to_gpkg (partitioning/utils.py, lines 11-94) -/

/-- Python truthiness of an optional list attribute: `None` and the empty
list are both falsy. -/
def truthy {α : Type} : Option (List α) → Bool
  | Option.none => false
  | some l => !l.isEmpty

/-- The part of a partitioner `save_to_gpkg` reads: the parent graph's edge
identifiers, the sparsified subgraph's edge identifiers (`none` when the
attribute is `None`), whether the sparsified attribute has the same type as
the graph, and the `components` / `partitions` attributes as lists of
(name, subgraph edge identifiers). The dict-shape check of the source is
guaranteed by this typed representation. -/
structure GpkgPartitioner where
  graphEdges : List (ℕ × ℕ × ℕ)
  sparsified : Option (List (ℕ × ℕ × ℕ))
  sparsifiedIsGraphType : Bool
  components : Option (List (String × List (ℕ × ℕ × ℕ)))
  partitions : Option (List (String × List (ℕ × ℕ × ℕ)))

/-- The errors `save_to_gpkg` raises. -/
inductive GpkgError where
  | noSparsified
  | sparsifiedWrongType
  | noComponentsNorPartitions
deriving DecidableEq, Repr

/-- The `classification` attribute an edge of the parent graph carries after
the baking loop: `set_edge_attributes(part["subgraph"], part["name"],
"classification")` runs for each part in order, so the last part containing
the edge wins, and an edge in no part keeps no classification at all. -/
def classificationOf (parts : List (String × List (ℕ × ℕ × ℕ)))
    (e : ℕ × ℕ × ℕ) : Option String :=
  parts.foldl (fun acc part => if part.2.contains e then some part.1 else acc)
    Option.none

/-- `save_to_gpkg` (partitioning/utils.py, lines 11-94), reduced to the data
it persists: after validating the sparsified subgraph and the
components/partitions attributes, it bakes each part's name into the
`classification` edge attribute of the part's subgraph view and exports
every graph edge with its resulting attribute. No other write to
`classification` occurs — in particular none for the sparsified edges. -/
def save_to_gpkg (p : GpkgPartitioner) :
    Except GpkgError (List ((ℕ × ℕ × ℕ) × Option String)) :=
  match p.sparsified with
  | Option.none => .error .noSparsified
  | some _ =>
    if !p.sparsifiedIsGraphType then .error .sparsifiedWrongType
    else if !truthy p.components && !truthy p.partitions then
      .error .noComponentsNorPartitions
    else
      let parts :=
        if truthy p.components then p.components.getD []
        else p.partitions.getD []
      .ok (p.graphEdges.map fun e => (e, classificationOf parts e))

/-! ### calculate_partitioning_distance_matrix guards -/

/-- The errors of the restricted-distance computation's guards. -/
inductive DistanceError where
  | duplicateNames
  | overlappingComponents
deriving DecidableEq, Repr

/-- Modelled from the spec: `calculate_partitioning_distance_matrix` of
superblockify/metrics/distances.py is not under src/ (only its tests are).
Per the spec it "must detect and fail with an error if component names
collide (ambiguous routing) or if components pairwise overlap (checked again
independently here as a defensive invariant)", the latter only when overlap
checking is enabled. Components are given as (name, node set) pairs; the
matrix computation itself is outside the claim and elided. -/
def calculate_partitioning_distance_matrix
    (components : List (String × List ℕ)) (check_overlap : Bool) :
    Except DistanceError Unit :=
  if ¬ (components.map Prod.fst).Nodup then .error .duplicateNames
  else if check_overlap && anyOffDiagOverlap (components.map Prod.snd) then
    .error .overlappingComponents
  else .ok ()

/-! ### scipy.signal.find_peaks, as used by BearingPartitioner.__find_peaks

The bearing strategy hands `scipy.signal.find_peaks` the merged histogram's
frequencies with `height` = their mean, `prominence` = their standard
deviation and `distance` = `int(0.4 * num_bins / 90)` samples. The scipy
routine (an external collaborator, modelled from its documented algorithm
with exact rational arithmetic) finds interior local maxima with plateau
midpoints, then filters by height, by distance (removing lower peaks closer
than `distance` samples to a kept higher one) and by prominence. -/

/-- `np.mean` of a rational list (0 on the empty list, matching ℚ division
by zero where numpy would give NaN; the empty case is never reached). -/
def meanQ (x : List ℚ) : ℚ := x.sum / x.length

/-- `np.std` squared: the population variance of a rational list. The
standard deviation itself is its real square root. -/
def varianceQ (x : List ℚ) : ℚ :=
  (x.map fun v => (v - meanQ x) ^ 2).sum / x.length

/-- The plateau scan inside scipy's `_local_maxima_1d`: starting at `j`,
advance while `j < iMax` and `x[j]` equals the peak candidate's value. The
fuel only bounds the steps; `x.length` is always enough. -/
def plateauEnd (x : List ℚ) (iMax : ℕ) (v : ℚ) : ℕ → ℕ → ℕ
  | 0, j => j
  | fuel + 1, j =>
    if j < iMax ∧ x.getD j 0 = v then plateauEnd x iMax v fuel (j + 1) else j

/-- scipy's `_local_maxima_1d` scan from position `i`: a sample strictly
above its left neighbour opens a candidate plateau; if the first differing
sample to the right is strictly lower, the plateau is a peak with midpoint
`(left + right) / 2` and the scan resumes past the plateau, else it resumes
at the next sample. Returns (midpoint, left edge, right edge) triples. The
fuel only bounds the steps; `x.length` is always enough, as `i` strictly
grows. -/
def localMaximaAux (x : List ℚ) : ℕ → ℕ → List (ℕ × ℕ × ℕ)
  | 0, _ => []
  | fuel + 1, i =>
    if i < x.length - 1 then
      if x.getD (i - 1) 0 < x.getD i 0 then
        let iAhead := plateauEnd x (x.length - 1) (x.getD i 0) x.length (i + 1)
        if x.getD iAhead 0 < x.getD i 0 then
          ((i + (iAhead - 1)) / 2, i, iAhead - 1) ::
            localMaximaAux x fuel (iAhead + 1)
        else localMaximaAux x fuel (i + 1)
      else localMaximaAux x fuel (i + 1)
    else []

/-- All interior local maxima of a sample sequence, scipy style. -/
def localMaxima (x : List ℚ) : List (ℕ × ℕ × ℕ) :=
  localMaximaAux x x.length 1

/-- The left half of scipy's `_peak_prominences` base search: walk left from
the peak while samples stay at or below the peak's value, tracking the
minimum and its position. Fuel `peak + 1` runs the walk to position 0. -/
def leftBaseScan (x : List ℚ) (xp : ℚ) : ℕ → ℕ → ℚ → ℕ → ℚ × ℕ
  | 0, _, lm, lb => (lm, lb)
  | fuel + 1, i, lm, lb =>
    if x.getD i 0 ≤ xp then
      let lm' := if x.getD i 0 < lm then x.getD i 0 else lm
      let lb' := if x.getD i 0 < lm then i else lb
      if i = 0 then (lm', lb')
      else leftBaseScan x xp fuel (i - 1) lm' lb'
    else (lm, lb)

/-- The right half of the base search, walking right to the last sample. -/
def rightBaseScan (x : List ℚ) (xp : ℚ) : ℕ → ℕ → ℚ → ℕ → ℚ × ℕ
  | 0, _, rm, rb => (rm, rb)
  | fuel + 1, i, rm, rb =>
    if x.getD i 0 ≤ xp then
      let rm' := if x.getD i 0 < rm then x.getD i 0 else rm
      let rb' := if x.getD i 0 < rm then i else rb
      if i + 1 = x.length then (rm', rb')
      else rightBaseScan x xp fuel (i + 1) rm' rb'
    else (rm, rb)

/-- scipy's `peak_prominences` for one peak (full window): the prominence is
the peak's height above the higher of the two base minima; the bases are the
minima's positions. -/
def peak_prominence (x : List ℚ) (peak : ℕ) : ℚ × ℕ × ℕ :=
  let xp := x.getD peak 0
  let (lmin, lbase) := leftBaseScan x xp (peak + 1) peak xp peak
  let (rmin, rbase) := rightBaseScan x xp (x.length - peak) peak xp peak
  (xp - max lmin rmin, lbase, rbase)

/-- One marking step of scipy's `_select_by_peak_distance`: if the peak at
index `j` is still kept, remove every other peak strictly closer than
`distance` samples. (The source's two while loops stop at the first peak
far enough away; as positions are sorted, that marks exactly these.) -/
def sbpdStep (peaks : List ℕ) (distance : ℕ) (keep : List Bool) (j : ℕ) :
    List Bool :=
  if keep.getD j false then
    (List.range peaks.length).map fun k =>
      if k = j then true
      else if peaks.getD j 0 - peaks.getD k 0 < distance ∧
          peaks.getD k 0 - peaks.getD j 0 < distance then false
      else keep.getD k false
  else keep

/-- Insert into a sorted list according to a boolean total order. -/
def insertSorted (le : ℕ → ℕ → Bool) (a : ℕ) : List ℕ → List ℕ
  | [] => [a]
  | b :: rest => if le a b then a :: b :: rest else b :: insertSorted le a rest

/-- Insertion sort according to a boolean total order. -/
def insertionSort (le : ℕ → ℕ → Bool) : List ℕ → List ℕ
  | [] => []
  | a :: rest => insertSorted le a (insertionSort le rest)

/-- scipy's `_select_by_peak_distance`: visit peaks from highest priority
(height) downwards, keeping each survivor and removing its too-close
neighbours. numpy's argsort leaves the order of equal priorities
unspecified; this model breaks ties by position, which is immaterial for
the bearing caller whose distance of one sample removes nothing. -/
def selectByPeakDistance (peaks : List ℕ) (priority : List ℚ)
    (distance : ℕ) : List ℕ :=
  let order := (insertionSort
    (fun a b => priority.getD a 0 < priority.getD b 0 ∨
      (priority.getD a 0 = priority.getD b 0 ∧ a ≤ b))
    (List.range peaks.length)).reverse
  let keep := order.foldl (sbpdStep peaks distance)
    (List.replicate peaks.length true)
  (List.range peaks.length).filterMap fun k =>
    if keep.getD k false then some (peaks.getD k 0) else Option.none

/-- `BearingPartitioner.__find_peaks` (bearing.py, lines 145-185):
`scipy.signal.find_peaks` on the merged histogram frequencies with
minimum height the frequencies' mean, minimum prominence one standard
deviation σ, and minimum distance `int(0.4 * num_bins / 90)` samples.
Since prominences are nonnegative, the σ ≤ prominence filter is evaluated
as variance ≤ prominence². -/
def findPeaksBearing (x : List ℚ) (numBins : ℕ) : List ℕ :=
  let height := meanQ x
  let varx := varianceQ x
  let distance := Int.toNat ⌊(2 / 5 : ℚ) * numBins / 90⌋
  let maxima := (localMaxima x).map fun t => t.1
  let afterHeight := maxima.filter fun p => height ≤ x.getD p 0
  let afterDistance := selectByPeakDistance afterHeight
    (afterHeight.map fun p => x.getD p 0) distance
  afterDistance.filter fun p => varx ≤ (peak_prominence x p).1 ^ 2

/-! ### BearingPartitioner.run (partitioning/bearing.py, lines 28-98) -/

/-- Python `bearing % 90` on a float: NaN and the infinities give NaN,
finite values reduce into `[0, 90)`. -/
def pfMod90 : PFloat → PFloat
  | .num q => .num (q - 90 * ⌊q / 90⌋)
  | _ => .nan

/-- An edge of the partitioner's graph with the attributes the bearing
strategy reads and writes. `Option.none` on an attribute means the edge does
not carry it; a carried `bearing_group` value is `None`, NaN or a number
(`PyValue.none` / `.nan` / `.num`). -/
structure BEdge where
  eid : ℕ × ℕ × ℕ
  bearing : Option PFloat := Option.none
  bearing90 : Option PFloat := Option.none
  bearingGroup : Option PyValue := Option.none

/-- The observable state of a `BearingPartitioner`: its graph's edges and
the `attribute_label` and `partition` attributes (both `None` after
construction, per `BasePartitioner.__init__`). -/
structure BearingState where
  edges : List BEdge
  attribute_label : Option String := Option.none
  partition : Option (List (String × ℚ)) := Option.none

/-- The errors `run` can raise: the no-peaks `ArithmeticError`, the
identical-bases `ValueError` of `__make_boundaries`, and the `IndexError` of
its empty peak selection. -/
inductive RunError where
  | arithmeticError
  | valueError
  | indexError
deriving DecidableEq, Repr

/-- The finite `bearing_90` values entering the histogram. NaN values fall
into no bin of `np.histogram` (all comparisons fail), so they are dropped
here on collection. -/
def histValues (edges : List BEdge) : List ℚ :=
  edges.filterMap fun e =>
    match e.bearing90 with
    | some (.num q) => some q
    | _ => Option.none

/-- `np.histogram` over the 720 half-open bins of width 0.125° covering
`[0, 90]`: a value `v` lands in bin `⌊v * 8⌋` (values outside the bin range
are dropped; `bearing % 90` never reaches the closed last edge 90). -/
def binCounts (values : List ℚ) : List ℕ :=
  let idxs : List ℤ := values.map fun v => ⌊v * 8⌋
  (List.range 720).map fun i => (idxs.filter fun b => b = (i : ℤ)).length

/-- `np.roll(count, 1)`: move the last entry to the front. -/
def rollOne {α : Type} (l : List α) : List α :=
  match l.getLast? with
  | Option.none => l
  | some a => a :: l.dropLast

/-- `count[::2] + count[1::2]` after the roll: merge neighbouring bin pairs
into the 360 final bins of width 0.25° (the rolled list has the even length
720, so the elementwise sum of the two stride-2 slices is exactly the
pairwise sum). -/
def mergePairs : List ℕ → List ℕ
  | a :: b :: rest => (a + b) :: mergePairs rest
  | _ => []

/-- The merged bin counts. -/
def mergedCounts (counts : List ℕ) : List ℕ :=
  mergePairs (rollOne counts)

/-- The merged bin edges `0, 0.25, …, 90` (every other original edge). -/
def bin_edges : List ℚ :=
  (List.range 361).map fun i => (i : ℚ) / 4

/-- `__bin_bearings`' bin frequencies: merged counts over their sum. (With
no finite bearings the sum is zero; ℚ division then gives zeros where numpy
gives NaNs — both yield no peaks.) -/
def binFrequency (values : List ℚ) : List ℚ :=
  let merged := mergedCounts (binCounts values)
  merged.map fun c => (c : ℚ) / (merged.sum : ℚ)

/-- The group-insertion step of `group_overlapping_intervals` (bearing.py,
lines 318-333): add the pair to the first group containing either index, or
append a new group. -/
def insertPair : List (Finset ℕ) → ℕ → ℕ → List (Finset ℕ)
  | [], g1, g2 => [{g1, g2}]
  | s :: rest, g1, g2 =>
    if g1 ∈ s then insert g2 s :: rest
    else if g2 ∈ s then insert g1 s :: rest
    else s :: insertPair rest g1 g2

/-- `BearingPartitioner.group_overlapping_intervals` (bearing.py, lines
264-342): collect the strictly-overlapping index pairs of the upper
triangle in row-major order, group them by shared membership, and merge the
groups that were split, via `merge_sets`. -/
def group_overlapping_intervals (left_bases right_bases : List ℕ) :
    List (Finset ℕ) :=
  let n := left_bases.length
  let overlaps := (List.range n).flatMap fun a =>
    (List.range n).filterMap fun b =>
      if a < b ∧ left_bases.getD b 0 < right_bases.getD a 0 ∧
          left_bases.getD a 0 < right_bases.getD b 0 then some (a, b)
      else Option.none
  merge_sets (overlaps.foldl (fun gs ab => insertPair gs ab.1 ab.2) [])

/-- Deduplication keeping the first occurrence, as a Python dict
comprehension orders its keys. Fuel at the list's length is exact. -/
def dedupFirst : ℕ → List (ℚ × ℚ) → List (ℚ × ℚ)
  | 0, _ => []
  | _ + 1, [] => []
  | fuel + 1, x :: rest => x :: dedupFirst fuel (rest.filter fun y => y ≠ x)

/-- The `base_vals` dict comprehension of `__make_boundaries` (bearing.py,
lines 236-243): each interval is assigned the first peak bin-edge strictly
inside it; an interval holding no peak makes the `[0]` indexing raise
`IndexError`. -/
def assignPeakValues (bin_edges_l : List ℚ) (peak_ind : List ℕ) :
    List (ℚ × ℚ) → Except RunError (List ((ℚ × ℚ) × ℚ))
  | [] => .ok []
  | ab :: rest =>
    match (peak_ind.filterMap fun pk =>
        let e := bin_edges_l.getD pk 0
        if ab.1 < e ∧ e < ab.2 then some e else Option.none).head? with
    | Option.none => .error .indexError
    | some v =>
      (assignPeakValues bin_edges_l peak_ind rest).map fun tl => (ab, v) :: tl

/-- The boundary/value accumulation loop of `__make_boundaries` (bearing.py,
lines 245-262): intervals flush onto the boundary list, fusing with the
previous boundary when they continue it, and the trailing `None` slot is
dropped or the closing boundary 90 appended. -/
def buildBoundaries (items : List ((ℚ × ℚ) × ℚ)) :
    List ℚ × List (Option ℚ) :=
  let st := items.foldl
    (fun (st : List ℚ × List (Option ℚ)) iv =>
      if st.1.getLast? = some iv.1.1 then
        (st.1 ++ [iv.1.2], st.2.dropLast ++ [some iv.2, Option.none])
      else
        (st.1 ++ [iv.1.1, iv.1.2], st.2 ++ [some iv.2, Option.none]))
    ([0], [Option.none])
  if st.1.getLast? = some 90 then (st.1, st.2.dropLast)
  else (st.1 ++ [90], st.2)

/-- `BearingPartitioner.__make_boundaries` (bearing.py, lines 187-262):
raise on identical base pairs, split the overlap groups along their sorted
unique borders (a Python set of small indices iterates ascending, modelled
by `Finset.sort`; an out-of-range border access, a CPython `IndexError`, is
totalized by `getD`), assign each interval its first interior peak edge,
and accumulate the boundaries and centre values. -/
def make_boundaries (bin_edges_l : List ℚ)
    (peak_ind left_bases right_bases : List ℕ) :
    Except RunError (List ℚ × List (Option ℚ)) :=
  let n := left_bases.length
  let identical := (List.range n).any fun i =>
    (List.range n).any fun j =>
      decide (i ≠ j) && decide (left_bases.getD i 0 = left_bases.getD j 0) &&
        decide (right_bases.getD i 0 = right_bases.getD j 0)
  if identical then .error .valueError
  else
    let groups := group_overlapping_intervals left_bases right_bases
    let base0 : List (ℚ × ℚ) := (List.range n).map fun k =>
      (bin_edges_l.getD (left_bases.getD k 0) 0,
        bin_edges_l.getD (right_bases.getD k 0) 0)
    let baseSplit := groups.foldl
      (fun bv group =>
        let borders := (group.biUnion fun g =>
          ({left_bases.getD g 0, right_bases.getD g 0} : Finset ℕ)).sort (· ≤ ·)
        (group.sort (· ≤ ·)).enum.foldl
          (fun bv2 ig =>
            bv2.set ig.2
              (bin_edges_l.getD (borders.getD ig.1 0) 0,
                bin_edges_l.getD (borders.getD (ig.1 + 1) 0) 0))
          bv)
      base0
    match assignPeakValues bin_edges_l peak_ind
        (dedupFirst baseSplit.length baseSplit) with
    | .error e => .error e
    | .ok items => .ok (buildBoundaries items)

/-- Python float `≤` against a finite left operand, used by the bisection. -/
def PFloat.leB : ℚ → PFloat → Bool
  | b, .num v => b ≤ v
  | _, .inf => true
  | _, _ => false

/-- `bisect.bisect_right` on a sorted boundary list: the number of
boundaries at most the probe. -/
def bisect_right (l : List ℚ) (v : PFloat) : ℕ :=
  (l.filter fun b => PFloat.leB b v).length

/-- A Python list access with negative-index wrap-around. -/
def pyGet {α : Type} (l : List α) (i : ℤ) (d : α) : α :=
  if i < 0 then l.getD (l.length - (-i).toNat) d else l.getD i.toNat d

/-- Python's `str` of a slice of the boundary list, used for partition
names. (Number rendering is the ℚ one; Python renders floats, which only
affects the display string.) -/
def pySliceStr (l : List ℚ) : String :=
  "[" ++ String.intercalate ", " (l.map toString) ++ "]"

/-- The labelling tail of `run` (bearing.py, lines 70-98) after peaks were
found: boundaries are built, every edge carrying `bearing_90` receives a
`bearing_group` value (NaN stays NaN, otherwise the centre value of the
interval the bearing bisects into), `attribute_label` is set and the
partition list of the non-`None` centre values is written. On a raise
inside `__make_boundaries` the state keeps its labels untouched. -/
def runTail (s : BearingState) (freq : List ℚ) (peaks : List ℕ) :
    BearingState × Option RunError :=
  let promData := peaks.map fun p => peak_prominence freq p
  let left_bases := promData.map fun t => t.2.1
  let right_bases := promData.map fun t => t.2.2
  match make_boundaries bin_edges peaks left_bases right_bases with
  | .error e => (s, some e)
  | .ok bc =>
    let boundaries := bc.1
    let center_values := bc.2
    let edges' := s.edges.map fun e =>
      match e.bearing90 with
      | Option.none => e
      | some f =>
        if f = .nan then { e with bearingGroup := some PyValue.nan }
        else
          let idx : ℤ := (bisect_right boundaries f : ℤ) - 1
          let gv : PyValue :=
            match pyGet center_values idx Option.none with
            | Option.none => PyValue.none
            | some v => PyValue.num v
          { e with bearingGroup := some gv }
    let partition := (List.range center_values.length).filterMap fun i =>
      match center_values.getD i Option.none with
      | Option.none => Option.none
      | some v => some (pySliceStr ((boundaries.drop i).take 2), v)
    ({ edges := edges', attribute_label := some "bearing_group",
       partition := some partition }, Option.none)

/-- `BearingPartitioner.run` (bearing.py, lines 28-98): bin the bearings
modulo 90° into 360 merged bins (`bearing_90` is written to the graph by
the attribute engine; modelled from the spec, since attribute.py is not
under src/, as applying the pure function to every edge carrying the source
attribute), find peaks with `__find_peaks`, raise `ArithmeticError` when
none were found, and otherwise build boundaries and commit the labels. -/
def run (s : BearingState) : BearingState × Option RunError :=
  let edges' := s.edges.map fun e => { e with bearing90 := e.bearing.map pfMod90 }
  let s1 : BearingState := { s with edges := edges' }
  let freq := binFrequency (histValues edges')
  let peaks := findPeaksBearing freq 360
  if peaks.isEmpty then (s1, some .arithmeticError)
  else runTail s1 freq peaks

/-- The bearings 0°, 90°, 180° and 270° of the spec's synthetic four-edge
graph — all equivalent modulo 90°. -/
def degreeEdges : List BEdge :=
  [{ eid := (1, 2, 0), bearing := some (.num 0) },
   { eid := (2, 3, 0), bearing := some (.num 90) },
   { eid := (3, 4, 0), bearing := some (.num 180) },
   { eid := (4, 1, 0), bearing := some (.num 270) }]

mutual

theorem compareValues_refl : ∀ v, compareValues v v = true
  | .none => rfl
  | .nan => rfl
  | .num a => by simp [compareValues]
  | .str a => by simp [compareValues]
  | .list xs => by rw [compareValues]; exact compareLists_refl xs
  | .dict xs => by rw [compareValues]; exact compareEntries_refl xs

theorem compareLists_refl : ∀ xs, compareLists xs xs = true
  | [] => rfl
  | x :: xs => by
      rw [compareLists, compareValues_refl x, compareLists_refl xs]; rfl

theorem compareEntries_refl : ∀ xs, compareEntries xs xs = true
  | [] => rfl
  | (k, v) :: xs => by
      rw [compareEntries, compareValues_refl v, compareEntries_refl xs]
      simp

end

/-- An early `return False` guarded by a negated condition is conjunction
with the condition. -/
theorem guard_not_false {b x : Bool} : (if (!b) = true then false else x) = (b && x) := by
  cases b <;> simp

/-- An early `return False` guarded by a positive condition is conjunction
with its negation. -/
theorem guard_pos_false {b x : Bool} : (if b = true then false else x) = (!b && x) := by
  cases b <;> simp

/-- The validity verdict as the conjunction of the seven checks. -/
theorem is_valid_eq_all_checks (p : Partitioning) :
    is_valid_partitioning p = checkOrder.all (checkPasses p) := by
  simp only [is_valid_partitioning,
    nodes_and_edges_are_contained_in_exactly_one_subgraph, guard_not_false,
    guard_pos_false, checkOrder, List.all_cons, List.all_nil, checkPasses]
  simp only [Bool.not_not, Bool.and_true, Bool.and_assoc]

/-- The evaluation trace is the passing prefix of the check order followed
by the first failing check, if any. -/
theorem checksEvaluated_eq_prefix (p : Partitioning) :
    checksEvaluated p =
      checkOrder.takeWhile (checkPasses p) ++
        (checkOrder.dropWhile (checkPasses p)).take 1 := by
  simp only [checksEvaluated, checkOrder]
  cases h1 : p.sparsified.weaklyConnected with
  | false => simp [checkPasses, h1]
  | true =>
  cases h2 : components_are_connected p with
  | false => simp [checkPasses, h1, h2]
  | true =>
  cases h3 : anyOffDiagOverlap (partitionNodeLists p) with
  | true => simp [checkPasses, h1, h2, h3]
  | false =>
  cases h4 : (missingNodes p).isEmpty with
  | false => simp [checkPasses, h1, h2, h3, h4]
  | true =>
  cases h5 : anyOffDiagOverlap (partitionEdgeLists p) with
  | true => simp [checkPasses, h1, h2, h3, h4, h5]
  | false =>
  cases h6 : (missingEdges p).isEmpty with
  | false => simp [checkPasses, h1, h2, h3, h4, h5, h6]
  | true =>
  cases h7 : components_are_connect_sparsified p with
  | false => simp [checkPasses, h1, h2, h3, h4, h5, h6, h7]
  | true => simp [checkPasses, h1, h2, h3, h4, h5, h6, h7]

/-! ### List access lemmas used by the exclusivity argument -/

/-- Setting one position leaves `getD` at other positions unchanged. -/
theorem getD_set_ne {α : Type} {l : List α} {i j : ℕ} {a d : α} (h : i ≠ j) :
    (l.set j a).getD i d = l.getD i d := by
  induction l generalizing i j with
  | nil => rfl
  | cons x xs ih =>
    cases j with
    | zero => cases i with
      | zero => exact absurd rfl h
      | succ i => rfl
    | succ j => cases i with
      | zero => rfl
      | succ i => exact ih (fun hc => h (by rw [hc]))

/-- Setting an in-range position is read back by `getD`. -/
theorem getD_set_self {α : Type} {l : List α} {j : ℕ} {a d : α}
    (h : j < l.length) : (l.set j a).getD j d = a := by
  induction l generalizing j with
  | nil => exact absurd h (by simp)
  | cons x xs ih =>
    cases j with
    | zero => rfl
    | succ j => exact ih (Nat.lt_of_succ_lt_succ h)

/-- `getD` of an append reads the left list while in its range. -/
theorem getD_append_left {α : Type} {l m : List α} {i : ℕ} {d : α}
    (h : i < l.length) : (l ++ m).getD i d = l.getD i d := by
  induction l generalizing i with
  | nil => exact absurd h (by simp)
  | cons x xs ih =>
    cases i with
    | zero => rfl
    | succ i => exact ih (Nat.lt_of_succ_lt_succ h)

/-- `getD` of an append at the length of the left list reads the right
list's head position. -/
theorem getD_append_right_zero {α : Type} {l m : List α} {d : α} :
    (l ++ m).getD l.length d = m.getD 0 d := by
  induction l with
  | nil => rfl
  | cons x xs ih => exact ih

/-- `getD` past the end of the list yields the default. -/
theorem getD_eq_of_len_le {α : Type} {l : List α} {i : ℕ} {d : α}
    (h : l.length ≤ i) : l.getD i d = d := by
  induction l generalizing i with
  | nil => cases i <;> rfl
  | cons x xs ih =>
    cases i with
    | zero => exact absurd h (by simp)
    | succ i => exact ih (Nat.le_of_succ_le_succ h)

/-- A membership in `getD` with default `[]` forces the index in range. -/
theorem lt_length_of_mem_getD {α : Type} {ls : List (List α)} {i : ℕ} {e : α}
    (h : e ∈ ls.getD i []) : i < ls.length := by
  by_contra hge
  rw [getD_eq_of_len_le (Nat.le_of_not_lt hge)] at h
  exact absurd h (List.not_mem_nil e)

/-- The edge sets compared by the edge-overlap check, in closed form: the
component edge lists followed by the sparsified edge list. -/
theorem partitionEdgeLists_eq (p : Partitioning) :
    partitionEdgeLists p =
      p.components.map (fun c => c.2.edges) ++ [p.sparsified.edges] := by
  simp only [partitionEdgeLists, Partitioning.get_partition_nodes,
    List.map_map]
  rfl

/-! ### Claim C9 -/

/-- C9: `Metric.calculate_high_bc_clustering` raises a `ValueError` if and
only if the given percentile is not an int or float strictly between 0.0 and
100.0 (both bounds exclusive); when the percentile is such a number, the
validation raises nothing. -/
theorem c9_percentile_validation_iff (p : Percentile) :
    (∃ e, calculate_high_bc_clustering_validation p = .error e) ↔
      ¬ (p.isNumeric = true ∧ p.strictlyBetween0And100 = true) := by
  unfold calculate_high_bc_clustering_validation
  constructor
  · rintro ⟨e, he⟩ ⟨h1, h2⟩
    simp [h1, h2] at he
  · intro h
    by_cases h1 : p.isNumeric = true
    · by_cases h2 : p.strictlyBetween0And100 = true
      · exact absurd ⟨h1, h2⟩ h
      · exact ⟨.notBetween, by simp [h1, h2]⟩
    · exact ⟨.notNumeric "percentile needs to be a float or int", by simp [h1]⟩

end Superblockify

namespace Superblockify

/-! ### Claim C3 -/

/-- C3: for every `Metric` object, saving it with `Metric.save` and loading
it back with `Metric.load` yields an object equal to the original under
`Metric.__eq__`, i.e. deep field-wise equality over all attributes including
nested dicts, with NaN equal to itself where present. -/
theorem c3_metric_save_load_roundtrip (m : Metric) :
    Metric.eq (Metric.load (Metric.save m)) m = true :=
  compareEntries_refl m.toDict

/-! ### Claim C10 -/

/-- A value is `None` exactly when `isNone` says so. -/
theorem PyValue.isNone_iff {v : PyValue} : v.isNone = true ↔ v = .none := by
  cases v <;> simp [PyValue.isNone]

/-- A dict value is never `None`. -/
theorem PyValue.isNone_dict (xs : List (String × PyValue)) :
    (PyValue.dict xs).isNone = false := rfl

/-- C10, counterexample: for a freshly constructed `Metric` of
metrics/metric.py, `str(metric)` is `"unit: time; "`, not the empty string,
because `__str__` always includes the `unit` attribute. -/
theorem c10_fresh_metric_str_counterexample :
    (Metric.init).str = "unit: time; " ∧ (Metric.init).str ≠ "" :=
  ⟨rfl, by decide⟩

/-- C10, amended: the legacy `Metric` of superblockify/metrics.py stringifies
a fresh instance to the empty string, while the `Metric` of
superblockify/metrics/metric.py always includes the `unit` attribute, so a
fresh instance stringifies to `"unit: time; "`; in both versions every other
attribute whose value is None is omitted, every dict attribute with only None
values is omitted, only the non-None entries of remaining dicts are listed,
and `__repr__` is the class name around the `__str__` output in parentheses.
-/
theorem c10_metric_str_omission_amended :
    (Legacy.Metric.init).str = "" ∧
    (Metric.init).str = "unit: time; " ∧
    (∀ (key : String) (value : PyValue) rest acc, value = .none → key ≠ "unit" →
      strLoopNew ((key, value) :: rest) acc = strLoopNew rest acc) ∧
    (∀ (key : String) (entries : List (String × PyValue)) rest acc,
      entries.all (fun kv => kv.2.isNone) = true →
      strLoopNew ((key, .dict entries) :: rest) acc = strLoopNew rest acc) ∧
    (∀ (key : String) (value : PyValue) rest acc, value = .none →
      Legacy.strLoopOld ((key, value) :: rest) acc = Legacy.strLoopOld rest acc) ∧
    (∀ (key : String) (entries : List (String × PyValue)) rest acc,
      entries.all (fun kv => kv.2.isNone) = true →
      Legacy.strLoopOld ((key, .dict entries) :: rest) acc =
        Legacy.strLoopOld rest acc) ∧
    (∀ (k : String) (v : PyValue) rest, v = .none →
      dictEntriesStr ((k, v) :: rest) = dictEntriesStr rest) ∧
    (∀ m : Metric, m.reprStr = "Metric(" ++ m.str ++ ")") ∧
    (∀ m : Legacy.Metric, m.reprStr = "Metric(" ++ m.str ++ ")") := by
  refine ⟨rfl, rfl, ?_, ?_, ?_, ?_, ?_, fun _ => rfl, fun _ => rfl⟩
  · intro key value rest acc hnone hkey
    subst hnone
    simp [strLoopNew, PyValue.isNone, hkey]
  · intro key entries rest acc hall
    simp only [strLoopNew, PyValue.isNone_dict, Bool.not_false, Bool.true_or,
      ite_true, hall]
  · intro key value rest acc hnone
    subst hnone
    simp [Legacy.strLoopOld, PyValue.isNone]
  · intro key entries rest acc hall
    simp only [Legacy.strLoopOld, PyValue.isNone_dict, Bool.not_false,
      ite_true, hall]
  · intro k v rest hnone
    subst hnone
    simp [dictEntriesStr, PyValue.isNone]

/-- C10, witness: the amended statement applied at concrete inputs — a
`coverage: None` field is omitted by both string loops, an all-None dict is
omitted, and the fresh strings and repr wrappers come out as stated. -/
theorem c10_metric_str_omission_amended_witness :
    strLoopNew [("coverage", PyValue.none)] "" = strLoopNew [] "" ∧
    strLoopNew [("directness", .dict [("SN", PyValue.none)])] "" =
      strLoopNew [] "" ∧
    Legacy.strLoopOld [("coverage", PyValue.none)] "" =
      Legacy.strLoopOld [] "" ∧
    (Metric.init).reprStr = "Metric(unit: time; )" := by
  have h := c10_metric_str_omission_amended
  refine ⟨h.2.2.1 "coverage" PyValue.none [] "" rfl (by decide),
          h.2.2.2.1 "directness" [("SN", PyValue.none)] [] "" (by decide),
          h.2.2.2.2.1 "coverage" PyValue.none [] "" rfl, ?_⟩
  rw [h.2.2.2.2.2.2.2.1 Metric.init, h.2.1]
  rfl

/-! ### Claim C1 -/

/-- C1: `is_valid_partitioning` runs the seven structural checks in the
stated order — the verdict is the conjunction of the seven checks, it is
true exactly when all seven pass, and the checks actually evaluated are the
passing prefix of the stated order followed by the first failing check
(nothing after the first failure is evaluated). -/
theorem c1_is_valid_seven_checks_short_circuit (p : Partitioning) :
    (is_valid_partitioning p = checkOrder.all (checkPasses p)) ∧
    (is_valid_partitioning p = true ↔ ∀ c ∈ checkOrder, checkPasses p c = true) ∧
    (checksEvaluated p =
      checkOrder.takeWhile (checkPasses p) ++
        (checkOrder.dropWhile (checkPasses p)).take 1) :=
  ⟨is_valid_eq_all_checks p,
   by rw [is_valid_eq_all_checks p]; exact List.all_eq_true,
   checksEvaluated_eq_prefix p⟩

/-! ### Claim C5 -/

/-- Mapping commutes with setting a position. -/
theorem map_set {α β : Type} (f : α → β) (l : List α) (j : ℕ) (a : α) :
    (l.set j a).map f = (l.map f).set j (f a) := by
  induction l generalizing j with
  | nil => rfl
  | cons x xs ih =>
    cases j with
    | zero => rfl
    | succ j => simp [ih j]

/-- `getD` of an append at an index equal to the left length reads the right
list's head position. -/
theorem getD_append_at_length {α : Type} {l m : List α} {d : α} {k : ℕ}
    (h : k = l.length) : (l ++ m).getD k d = m.getD 0 d := by
  subst h; exact getD_append_right_zero

/-- Membership makes `contains` true (for the decidable-equality `BEq`). -/
theorem contains_of_mem {α : Type} [DecidableEq α] {l : List α} {a : α}
    (h : a ∈ l) : l.contains a = true := by
  induction l with
  | nil => cases h
  | cons x xs ih =>
    rcases List.mem_cons.mp h with rfl | hm
    · simp [List.contains]
    · simp only [List.contains] at ih ⊢
      simp [ih hm]
      exact Or.inr hm

/-- C5: reassigning any single edge of a valid partitioning so that it
additionally appears in a second, different component's edge set makes
`is_valid_partitioning` return false — the edge then lies in two of the
compared edge sets, so the edge-overlap check cannot pass. -/
theorem c5_reassigned_edge_invalidates (p : Partitioning) (i j : ℕ)
    (e : ℕ × ℕ × ℕ)
    (hvalid : is_valid_partitioning p = true)
    (hj : j < p.components.length) (hij : i ≠ j)
    (hi : e ∈ (partitionEdgeLists p).getD i []) :
    is_valid_partitioning (addEdgeToComponent p j e) = false := by
  set p' := addEdgeToComponent p j e with hp'
  have hpel : partitionEdgeLists p =
      p.components.map (fun c => c.2.edges) ++ [p.sparsified.edges] :=
    partitionEdgeLists_eq p
  have hpel' : partitionEdgeLists p' =
      (p.components.map (fun c => c.2.edges)).set j
          (e :: (p.components.getD j ("", ⟨[], []⟩)).2.edges) ++
        [p.sparsified.edges] := by
    rw [hp', partitionEdgeLists_eq]
    simp only [addEdgeToComponent]
    rw [map_set]
  have hlenmap : (p.components.map (fun c => c.2.edges)).length =
      p.components.length := List.length_map _ _
  have hlenset :
      ((p.components.map (fun c => c.2.edges)).set j
        (e :: (p.components.getD j ("", ⟨[], []⟩)).2.edges)).length =
      p.components.length := by
    rw [List.length_set, hlenmap]
  -- the reassigned edge is now in component j's edge set
  have hmemj : e ∈ (partitionEdgeLists p').getD j [] := by
    rw [hpel', getD_append_left (by rw [hlenset]; exact hj),
      getD_set_self (by rw [hlenmap]; exact hj)]
    exact List.mem_cons_self e _
  -- all other compared edge sets are unchanged
  have hothers : ∀ k, k ≠ j →
      (partitionEdgeLists p').getD k [] = (partitionEdgeLists p).getD k [] := by
    intro k hkj
    rcases Nat.lt_trichotomy k p.components.length with hk | hk | hk
    · rw [hpel', hpel, getD_append_left (by rw [hlenset]; exact hk),
        getD_append_left (by rw [hlenmap]; exact hk), getD_set_ne hkj]
    · rw [hpel', hpel, getD_append_at_length (hk.trans hlenset.symm),
        getD_append_at_length (hk.trans hlenmap.symm)]
    · rw [hpel', hpel,
        getD_eq_of_len_le
          (by rw [List.length_append, hlenset, List.length_singleton]; omega),
        getD_eq_of_len_le
          (by rw [List.length_append, hlenmap, List.length_singleton]; omega)]
  have hmemi : e ∈ (partitionEdgeLists p').getD i [] := by
    rw [hothers i hij]; exact hi
  have hilt : i < (partitionEdgeLists p).length := lt_length_of_mem_getD hi
  have hlen : (partitionEdgeLists p).length = p.components.length + 1 := by
    rw [hpel, List.length_append, hlenmap, List.length_singleton]
  have hlen' : (partitionEdgeLists p').length = p.components.length + 1 := by
    rw [hpel', List.length_append, hlenset, List.length_singleton]
  -- the edge-overlap check fails on the modified partitioning
  have hoverlap : anyOffDiagOverlap (partitionEdgeLists p') = true := by
    apply List.any_eq_true.mpr
    refine ⟨i, List.mem_range.mpr (by rw [hlen']; rw [hlen] at hilt; exact hilt), ?_⟩
    apply List.any_eq_true.mpr
    refine ⟨j, List.mem_range.mpr (by rw [hlen']; omega), ?_⟩
    rw [Bool.and_eq_true]
    refine ⟨decide_eq_true hij, ?_⟩
    apply List.any_eq_true.mpr
    exact ⟨e, hmemi, contains_of_mem hmemj⟩
  rw [is_valid_eq_all_checks]
  cases hall : checkOrder.all (checkPasses p') with
  | false => rfl
  | true =>
    exfalso
    have := List.all_eq_true.mp hall CheckId.edgeOverlap (by simp [checkOrder])
    rw [checkPasses, hoverlap] at this
    simp at this

/-- C5, witness: the minimal 2-component, 4-node, 4-edge partitioning of the
spec is valid, and reassigning the edge of component A so that it also
appears in component B makes it invalid. -/
theorem c5_reassigned_edge_invalidates_witness :
    is_valid_partitioning minimalPartitioning = true ∧
    is_valid_partitioning
      (addEdgeToComponent minimalPartitioning 1 (1, 2, 0)) = false := by
  have hvalid : is_valid_partitioning minimalPartitioning = true := by decide
  exact ⟨hvalid,
    c5_reassigned_edge_invalidates minimalPartitioning 0 1 (1, 2, 0) hvalid
      (by decide) (by decide) (by decide)⟩

/-! ### Claim C6 -/

/-- When the stale `group` meets no other set, the inner loop changes
nothing. -/
theorem mergeInner_no_overlap (group : Finset ℕ) (i : ℕ) :
    ∀ (fuel : ℕ) (sets : List (Finset ℕ)) (j : ℕ),
      (∀ k (hk : k < sets.length), k ≠ i → group ∩ sets.get ⟨k, hk⟩ = ∅) →
      mergeInner group i fuel sets j = sets := by
  intro fuel
  induction fuel with
  | zero => intro sets j _; rfl
  | succ fuel ih =>
    intro sets j h
    rw [mergeInner]
    by_cases hj : j < sets.length
    · rw [dif_pos hj]
      have hcond : ¬ (i ≠ j ∧ (group ∩ sets.get ⟨j, hj⟩).Nonempty) := by
        rintro ⟨hne, hnon⟩
        rw [h j hj (fun hc => hne hc.symm)] at hnon
        exact Finset.not_nonempty_empty hnon
      rw [if_neg hcond]
      exact ih sets (j + 1) h
    · rw [dif_neg hj]

/-- On a list of pairwise-disjoint sets the outer loop changes nothing. -/
theorem mergeOuter_pairwise_disjoint (sets : List (Finset ℕ))
    (hd : ∀ a b (ha : a < sets.length) (hb : b < sets.length), a ≠ b →
      sets.get ⟨a, ha⟩ ∩ sets.get ⟨b, hb⟩ = ∅) :
    ∀ fuel i, mergeOuter fuel sets i = sets := by
  intro fuel
  induction fuel with
  | zero => intro _; rfl
  | succ fuel ih =>
    intro i
    rw [mergeOuter]
    by_cases hi : i < sets.length
    · rw [dif_pos hi,
        mergeInner_no_overlap _ _ _ _ _
          (fun k hk hki => hd i k hi hk (fun hc => hki hc.symm))]
      exact ih (i + 1)
    · rw [dif_neg hi]

/-- C6, counterexample: `merge_sets` is not idempotent. On
`[{1,2}, {3,4}, {1,3}, {2,4}]` one application returns
`[{1,2,3,4}, {2,4}]` (the stale `group` variable loses element 3 and the
`i == j` guard skips the remaining overlap), and a second application merges
further to `[{1,2,3,4}]` — a different grouping even as a set of groups. -/
theorem c6_merge_sets_not_idempotent_counterexample :
    merge_sets (merge_sets [({1, 2} : Finset ℕ), {3, 4}, {1, 3}, {2, 4}]) ≠
      merge_sets [({1, 2} : Finset ℕ), {3, 4}, {1, 3}, {2, 4}] ∧
    merge_sets [({1, 2} : Finset ℕ), {3, 4}, {1, 3}, {2, 4}] =
      [{1, 2, 3, 4}, {2, 4}] ∧
    merge_sets (merge_sets [({1, 2} : Finset ℕ), {3, 4}, {1, 3}, {2, 4}]) =
      [{1, 2, 3, 4}] := by
  refine ⟨?_, by decide, by decide⟩
  decide

/-- C6, amended: `merge_sets` is not idempotent for every list of sets; it
is the identity — and hence idempotent — on every list of pairwise-disjoint
sets, i.e. whenever its input (such as the output of a complete merge)
contains no two overlapping sets. -/
theorem c6_merge_sets_idempotent_on_disjoint_amended
    (sets : List (Finset ℕ))
    (h : sets.Pairwise fun s t => s ∩ t = ∅) :
    merge_sets sets = sets ∧
    merge_sets (merge_sets sets) = merge_sets sets := by
  have hd : ∀ a b (ha : a < sets.length) (hb : b < sets.length), a ≠ b →
      sets.get ⟨a, ha⟩ ∩ sets.get ⟨b, hb⟩ = ∅ := by
    intro a b ha hb hab
    have hget := List.pairwise_iff_get.mp h
    rcases Nat.lt_or_ge a b with hlt | hge
    · exact hget ⟨a, ha⟩ ⟨b, hb⟩ hlt
    · have hlt : b < a := Nat.lt_of_le_of_ne hge (fun hc => hab hc.symm)
      rw [Finset.inter_comm]
      exact hget ⟨b, hb⟩ ⟨a, ha⟩ hlt
  have hid : merge_sets sets = sets :=
    mergeOuter_pairwise_disjoint sets hd sets.length 0
  exact ⟨hid, by rw [hid, hid]⟩

/-- C6, witness: the amended statement applied to the concrete disjoint list
`[{1,2}, {3,4}]`. -/
theorem c6_merge_sets_idempotent_on_disjoint_amended_witness :
    merge_sets [({1, 2} : Finset ℕ), {3, 4}] = [({1, 2} : Finset ℕ), {3, 4}] ∧
    merge_sets (merge_sets [({1, 2} : Finset ℕ), {3, 4}]) =
      merge_sets [({1, 2} : Finset ℕ), {3, 4}] :=
  c6_merge_sets_idempotent_on_disjoint_amended
    [({1, 2} : Finset ℕ), {3, 4}] (by decide)

/-! ### Claim C8 -/

/-- C8: on a partitioner with one component owning edge `(1,2,0)` and a
sparsified subgraph owning edge `(2,3,0)`, `save_to_gpkg` exports the
component edge classified with the component's name, but the sparsified edge
with *no* classification at all — no edge carries the `"SPARSE"` sentinel the
docstring promises, because the code never writes it. -/
theorem c8_sparse_edges_not_classified :
    save_to_gpkg
        { graphEdges := [(1, 2, 0), (2, 3, 0)],
          sparsified := some [(2, 3, 0)],
          sparsifiedIsGraphType := true,
          components := some [("comp", [(1, 2, 0)])],
          partitions := Option.none } =
      .ok [((1, 2, 0), some "comp"), ((2, 3, 0), Option.none)] ∧
    ∀ classified ∈ [((1, 2, 0), some "comp"), ((2, 3, 0), Option.none)],
      classified.2 ≠ some "SPARSE" := by
  refine ⟨rfl, ?_⟩
  decide

/-! ### Claim C2 -/

/-- C2: the partition-restricted distance computation fails with an error
when two components carry the same name, and, when overlap checking is
enabled, fails with an error when two components' node sets overlap — with
no reference to the Validity Checker (no validity hypothesis is needed). -/
theorem c2_distance_matrix_guards (components : List (String × List ℕ))
    (check_overlap : Bool) :
    (¬ (components.map Prod.fst).Nodup →
      calculate_partitioning_distance_matrix components check_overlap =
        .error .duplicateNames) ∧
    ((components.map Prod.fst).Nodup → check_overlap = true →
      anyOffDiagOverlap (components.map Prod.snd) = true →
      calculate_partitioning_distance_matrix components check_overlap =
        .error .overlappingComponents) := by
  constructor
  · intro hdup
    rw [calculate_partitioning_distance_matrix, if_pos hdup]
  · intro hnodup hcheck hover
    rw [calculate_partitioning_distance_matrix, if_neg (by simp [hnodup]),
      if_pos (by rw [hcheck, hover]; rfl)]

/-! ### Claim C4 -/

/-- C4: when peak detection finds zero peaks, `BearingPartitioner.run`
raises `ArithmeticError` before any partition labels are committed: on a
freshly constructed partitioner the `attribute_label` and `partition`
attributes are still `None` afterwards and no edge carries a
`bearing_group` attribute — the graph is never partially labelled (only the
`bearing_90` histogram attribute has been written). -/
theorem c4_no_peaks_never_partially_labels (s : BearingState)
    (hlab : s.attribute_label = Option.none)
    (hpart : s.partition = Option.none)
    (hgrp : ∀ e ∈ s.edges, e.bearingGroup = Option.none)
    (hnopeaks : findPeaksBearing (binFrequency (histValues
      (s.edges.map fun e => { e with bearing90 := e.bearing.map pfMod90 })))
        360 = []) :
    (run s).2 = some RunError.arithmeticError ∧
    (run s).1.attribute_label = Option.none ∧
    (run s).1.partition = Option.none ∧
    ∀ e ∈ (run s).1.edges, e.bearingGroup = Option.none := by
  have hrun : run s =
      ({ s with edges := s.edges.map fun e =>
          { e with bearing90 := e.bearing.map pfMod90 } },
        some .arithmeticError) := by
    rw [run]
    simp only [hnopeaks, List.isEmpty_nil, if_true]
  rw [hrun]
  refine ⟨rfl, hlab, hpart, ?_⟩
  intro e he
  simp only at he
  rcases List.mem_map.mp he with ⟨e₀, he₀, rfl⟩
  exact hgrp e₀ he₀

set_option maxRecDepth 1000000 in
set_option maxHeartbeats 4000000 in
/-- C4, witness: the spec's synthetic four-edge graph with bearings 0°,
90°, 180°, 270° (all 0 modulo 90°) yields a degenerate one-spike histogram
with no interior peaks, so `run` raises the no-peaks `ArithmeticError` and
leaves the labels untouched. -/
theorem c4_no_peaks_never_partially_labels_witness :
    (run { edges := degreeEdges }).2 = some RunError.arithmeticError ∧
    (run { edges := degreeEdges }).1.attribute_label = Option.none ∧
    (run { edges := degreeEdges }).1.partition = Option.none ∧
    ∀ e ∈ (run { edges := degreeEdges }).1.edges,
      e.bearingGroup = Option.none :=
  c4_no_peaks_never_partially_labels { edges := degreeEdges } rfl rfl
    (by intro e he; fin_cases he <;> rfl) (by decide)

/-! ### Claim C7 -/

/-- The plateau scan never moves left. -/
theorem plateauEnd_ge (x : List ℚ) (iMax : ℕ) (v : ℚ) :
    ∀ fuel j, j ≤ plateauEnd x iMax v fuel j := by
  intro fuel
  induction fuel with
  | zero => intro j; exact Nat.le_refl j
  | succ fuel ih =>
    intro j
    rw [plateauEnd]
    by_cases h : j < iMax ∧ x.getD j 0 = v
    · rw [if_pos h]
      exact Nat.le_trans (Nat.le_succ j) (ih (j + 1))
    · rw [if_neg h]

/-- Every local maximum found from position `i` has midpoint at least `i`. -/
theorem localMaximaAux_midpoint_ge (x : List ℚ) :
    ∀ fuel i, ∀ t ∈ localMaximaAux x fuel i, i ≤ t.1 := by
  intro fuel
  induction fuel with
  | zero => intro i t ht; cases ht
  | succ fuel ih =>
    intro i t ht
    rw [localMaximaAux] at ht
    by_cases hi : i < x.length - 1
    · rw [if_pos hi] at ht
      by_cases hrise : x.getD (i - 1) 0 < x.getD i 0
      · rw [if_pos hrise] at ht
        by_cases hfall :
            x.getD (plateauEnd x (x.length - 1) (x.getD i 0) x.length (i + 1)) 0 <
              x.getD i 0
        · rw [if_pos hfall] at ht
          have hahead := plateauEnd_ge x (x.length - 1) (x.getD i 0) x.length (i + 1)
          rcases List.mem_cons.mp ht with rfl | htail
          · show i ≤ (i + (plateauEnd x (x.length - 1) (x.getD i 0) x.length (i + 1) - 1)) / 2
            omega
          · have := ih _ t htail
            omega
        · rw [if_neg hfall] at ht
          have := ih _ t ht
          omega
      · rw [if_neg hrise] at ht
        have := ih _ t ht
        omega
    · rw [if_neg hi] at ht
      cases ht

/-- Local-maxima midpoints found from any interior start are spaced at least
two samples apart: a plateau's right edge drops and the next plateau's left
edge rises, so two peaks cannot sit on adjacent samples. -/
theorem localMaximaAux_pairwise (x : List ℚ) :
    ∀ fuel i, List.Pairwise (fun a b => a.1 + 2 ≤ b.1)
      (localMaximaAux x fuel i) := by
  intro fuel
  induction fuel with
  | zero => intro i; exact List.Pairwise.nil
  | succ fuel ih =>
    intro i
    rw [localMaximaAux]
    by_cases hi : i < x.length - 1
    · rw [if_pos hi]
      by_cases hrise : x.getD (i - 1) 0 < x.getD i 0
      · rw [if_pos hrise]
        by_cases hfall :
            x.getD (plateauEnd x (x.length - 1) (x.getD i 0) x.length (i + 1)) 0 <
              x.getD i 0
        · rw [if_pos hfall]
          refine List.Pairwise.cons ?_ (ih _)
          intro t ht
          have hahead := plateauEnd_ge x (x.length - 1) (x.getD i 0) x.length (i + 1)
          have hge := localMaximaAux_midpoint_ge x fuel
            (plateauEnd x (x.length - 1) (x.getD i 0) x.length (i + 1) + 1) t ht
          show (i + (plateauEnd x (x.length - 1) (x.getD i 0) x.length (i + 1) - 1)) / 2 + 2 ≤ t.1
          omega
        · rw [if_neg hfall]; exact ih _
      · rw [if_neg hrise]; exact ih _
    · rw [if_neg hi]; exact List.Pairwise.nil

/-- An in-range `getD` is a member of the list. -/
theorem getD_mem_of_lt {α : Type} {l : List α} {k : ℕ} {d : α}
    (h : k < l.length) : l.getD k d ∈ l := by
  induction l generalizing k with
  | nil => exact absurd h (by simp)
  | cons x xs ih =>
    cases k with
    | zero => exact List.mem_cons_self x xs
    | succ k => exact List.mem_cons_of_mem x (ih (Nat.lt_of_succ_lt_succ h))

/-- The distance filter only ever keeps peaks from its input list. -/
theorem selectByPeakDistance_subset (peaks : List ℕ) (priority : List ℚ)
    (distance : ℕ) :
    ∀ p ∈ selectByPeakDistance peaks priority distance, p ∈ peaks := by
  intro p hp
  rw [selectByPeakDistance] at hp
  rcases List.mem_filterMap.mp hp with ⟨k, hk, hsome⟩
  by_cases hkeep : (((insertionSort
      (fun a b => priority.getD a 0 < priority.getD b 0 ∨
        (priority.getD a 0 = priority.getD b 0 ∧ a ≤ b))
      (List.range peaks.length)).reverse).foldl (sbpdStep peaks distance)
        (List.replicate peaks.length true)).getD k false = true
  · rw [if_pos hkeep] at hsome
    cases hsome
    exact getD_mem_of_lt (List.mem_range.mp hk)
  · rw [if_neg hkeep] at hsome
    cases hsome

/-- The left base scan never increases the running minimum. -/
theorem leftBaseScan_fst_le (x : List ℚ) (xp : ℚ) :
    ∀ fuel i lm lb, (leftBaseScan x xp fuel i lm lb).1 ≤ lm := by
  intro fuel
  induction fuel with
  | zero => intro i lm lb; exact le_rfl
  | succ fuel ih =>
    intro i lm lb
    rw [leftBaseScan]
    by_cases hle : x.getD i 0 ≤ xp
    · rw [if_pos hle]
      by_cases hlt : x.getD i 0 < lm
      · rw [if_pos hlt, if_pos hlt]
        by_cases hz : i = 0
        · rw [if_pos hz]; exact le_of_lt hlt
        · rw [if_neg hz]
          exact le_trans (ih (i - 1) _ _) (le_of_lt hlt)
      · rw [if_neg hlt, if_neg hlt]
        by_cases hz : i = 0
        · rw [if_pos hz]
        · rw [if_neg hz]; exact ih (i - 1) lm lb
    · rw [if_neg hle]

/-- The right base scan never increases the running minimum. -/
theorem rightBaseScan_fst_le (x : List ℚ) (xp : ℚ) :
    ∀ fuel i rm rb, (rightBaseScan x xp fuel i rm rb).1 ≤ rm := by
  intro fuel
  induction fuel with
  | zero => intro i rm rb; exact le_rfl
  | succ fuel ih =>
    intro i rm rb
    rw [rightBaseScan]
    by_cases hle : x.getD i 0 ≤ xp
    · rw [if_pos hle]
      by_cases hlt : x.getD i 0 < rm
      · rw [if_pos hlt, if_pos hlt]
        by_cases hz : i + 1 = x.length
        · rw [if_pos hz]; exact le_of_lt hlt
        · rw [if_neg hz]
          exact le_trans (ih (i + 1) _ _) (le_of_lt hlt)
      · rw [if_neg hlt, if_neg hlt]
        by_cases hz : i + 1 = x.length
        · rw [if_pos hz]
        · rw [if_neg hz]; exact ih (i + 1) rm rb
    · rw [if_neg hle]

/-- Prominences are nonnegative: both base minima start at the peak's own
height and only ever decrease. -/
theorem peak_prominence_nonneg (x : List ℚ) (p : ℕ) :
    0 ≤ (peak_prominence x p).1 := by
  rw [peak_prominence]
  have hl := leftBaseScan_fst_le x (x.getD p 0) (p + 1) p (x.getD p 0) p
  have hr := rightBaseScan_fst_le x (x.getD p 0) (x.length - p) p (x.getD p 0) p
  simp only
  rw [sub_nonneg, max_le_iff]
  exact ⟨hl, hr⟩

/-- C7: the bearing strategy's peak detection keeps only peaks whose height
is at least the mean of the bin frequencies and whose prominence is at least
one standard deviation of the bin frequencies, and (with the 360 merged
bins of 0.25° used by `run`) any two distinct selected peaks are at least
0.5° ≥ 0.4° apart. -/
theorem c7_peak_detection_thresholds (freq : List ℚ) :
    (∀ p ∈ findPeaksBearing freq 360,
      meanQ freq ≤ freq.getD p 0 ∧
      Real.sqrt (varianceQ freq) ≤ ((peak_prominence freq p).1 : ℝ)) ∧
    (∀ p ∈ findPeaksBearing freq 360, ∀ q ∈ findPeaksBearing freq 360,
      p ≠ q → (2 / 5 : ℚ) ≤ |(p : ℚ) - (q : ℚ)| * (90 / 360)) := by
  have hmem : ∀ p ∈ findPeaksBearing freq 360,
      p ∈ (localMaxima freq).map (fun t => t.1) ∧
      meanQ freq ≤ freq.getD p 0 ∧
      varianceQ freq ≤ (peak_prominence freq p).1 ^ 2 := by
    intro p hp
    rw [findPeaksBearing] at hp
    rcases List.mem_filter.mp hp with ⟨hsel, hprom⟩
    have hsub := selectByPeakDistance_subset _ _ _ p hsel
    rcases List.mem_filter.mp hsub with ⟨hmax, hheight⟩
    exact ⟨hmax, of_decide_eq_true hheight, of_decide_eq_true hprom⟩
  constructor
  · intro p hp
    rcases hmem p hp with ⟨-, hh, hv⟩
    refine ⟨hh, ?_⟩
    have hnn := peak_prominence_nonneg freq p
    have hcast : (varianceQ freq : ℝ) ≤ (((peak_prominence freq p).1 : ℝ)) ^ 2 := by
      exact_mod_cast hv
    calc Real.sqrt (varianceQ freq)
        ≤ Real.sqrt ((((peak_prominence freq p).1 : ℝ)) ^ 2) :=
          Real.sqrt_le_sqrt hcast
      _ = ((peak_prominence freq p).1 : ℝ) :=
          Real.sqrt_sq (by exact_mod_cast hnn)
  · intro p hp q hq hne
    have hpair : List.Pairwise
        (fun a b => (a + 2 ≤ b) ∨ (b + 2 ≤ a))
        ((localMaxima freq).map (fun t => t.1)) := by
      refine List.Pairwise.imp (fun h => Or.inl h) ?_
      exact (List.pairwise_map).mpr (localMaximaAux_pairwise freq freq.length 1)
    have hsep := hpair.forall (fun a b h => h.symm)
      (hmem p hp).1 (hmem q hq).1 hne
    have habs : (2 : ℚ) ≤ |(p : ℚ) - (q : ℚ)| := by
      rcases hsep with h | h
      · have hle : (p : ℚ) + 2 ≤ (q : ℚ) := by exact_mod_cast h
        rw [abs_sub_comm, abs_of_nonneg (by linarith)]
        linarith
      · have hle : (q : ℚ) + 2 ≤ (p : ℚ) := by exact_mod_cast h
        rw [abs_of_nonneg (by linarith)]
        linarith
    linarith

/-- C7, witness: on the frequency list `[0,2,0,2,0,2,0,2]` (mean 1, variance
1) the detector keeps peaks 1, 3 and 5; peak 1 meets the mean-height and
one-standard-deviation prominence thresholds, and peaks 1 and 3 are half a
degree apart. -/
theorem c7_peak_detection_thresholds_witness :
    findPeaksBearing [0, 2, 0, 2, 0, 2, 0, 2] 360 = [1, 3, 5] ∧
    meanQ [0, 2, 0, 2, 0, 2, 0, 2] ≤ [(0:ℚ), 2, 0, 2, 0, 2, 0, 2].getD 1 0 ∧
    Real.sqrt (varianceQ [0, 2, 0, 2, 0, 2, 0, 2]) ≤
      ((peak_prominence [0, 2, 0, 2, 0, 2, 0, 2] 1).1 : ℝ) ∧
    (2 / 5 : ℚ) ≤ |((1 : ℕ) : ℚ) - ((3 : ℕ) : ℚ)| * (90 / 360) := by
  have h := c7_peak_detection_thresholds [0, 2, 0, 2, 0, 2, 0, 2]
  have h1 := h.1 1 (by decide)
  have h2 := h.2 1 (by decide) 3 (by decide) (by decide)
  exact ⟨by decide, h1.1, h1.2, h2⟩

/-- C2, witness: duplicated component names raise, and with overlap checking
enabled a shared node between two differently named components raises. -/
theorem c2_distance_matrix_guards_witness :
    calculate_partitioning_distance_matrix
        [("A", [1, 2]), ("A", [3, 4])] false = .error .duplicateNames ∧
    calculate_partitioning_distance_matrix
        [("A", [1, 2]), ("B", [2, 3])] true = .error .overlappingComponents :=
  ⟨(c2_distance_matrix_guards [("A", [1, 2]), ("A", [3, 4])] false).1
      (by decide),
   (c2_distance_matrix_guards [("A", [1, 2]), ("B", [2, 3])] true).2
      (by decide) rfl (by decide)⟩

end Superblockify
